import Mathlib

/-!
Verification of the mp4ff box codec and AVC Annex-B converter core.

Shallow embedding of the Go sources:
  * mp4/audiosamplentry.go (AudioSampleEntryBox, its decode/encode/size,
    AddChild, RemoveEncryption, makeFixed32Uint / makeUint16FromFixed32),
  * the sync-sample box file (StssBox, DecodeStss, Size, IsSyncSample,
    Encode/EncodeSW),
  * the AVC Annex-B scanner / converters / parameter-set extractor, whose
    implementation file is not part of the sources (only its tests are), and
    which are therefore modelled from the specification where marked.

Bytes are modelled as Nat values (< 256 in well-formed data); byte buffers as
List Nat; machine integers as Nat with explicit mod 2^w where wrap-around can
occur; Go runtime panics as a distinct DecodeResult.crash outcome; Go error
returns as DecodeResult.err / Except.error.
-/

/-- Big-endian bytes of a 32-bit value, as written by WriteUint32 /
binary.BigEndian.PutUint32 (each byte reduced mod 256, so a value is
implicitly truncated to 32 bits). -/
def u32Bytes (n : Nat) : List Nat :=
  [n / 2 ^ 24 % 256, n / 2 ^ 16 % 256, n / 2 ^ 8 % 256, n % 256]

/-- Big-endian bytes of a 16-bit value, as written by WriteUint16. -/
def be16Bytes (n : Nat) : List Nat :=
  [n / 2 ^ 8 % 256, n % 256]

/-- Big-endian 16-bit read at an offset of a byte buffer (SliceReader
ReadUint16). Callers establish that the offset is in bounds. -/
def getU16 (l : List Nat) (off : Nat) : Nat :=
  l.getD off 0 * 2 ^ 8 + l.getD (off + 1) 0

/-- Big-endian 32-bit read at an offset of a byte buffer (SliceReader
ReadUint32). Callers establish that the offset is in bounds. -/
def getU32 (l : List Nat) (off : Nat) : Nat :=
  l.getD off 0 * 2 ^ 24 + l.getD (off + 1) 0 * 2 ^ 16
    + l.getD (off + 2) 0 * 2 ^ 8 + l.getD (off + 3) 0

/-- Bounds-checked big-endian 32-bit read: binary.BigEndian.Uint32 of
data[off : off+4]. Go panics when off+4 exceeds the slice length; that case
is the none result. -/
def readU32 (l : List Nat) (off : Nat) : Option Nat :=
  if off + 4 ≤ l.length then some (getU32 l off) else none

/-- Concatenation of the images of a list, used for encoding sequences of
fields and children (explicit recursion eases induction). -/
def flatMapB (f : α → List Nat) : List α → List Nat
  | [] => []
  | x :: xs => f x ++ flatMapB f xs

/-- Four tag bytes of a box type string, as written by the 4-byte string copy
in the encoded header (shorter strings are zero-padded, longer truncated). -/
def tag4 (s : String) : List Nat :=
  (s.toList.map Char.toNat ++ List.replicate 4 0).take 4

/-- Size of the plain 8-byte box header (boxHeaderSize constant of the repo;
the file defining it is not under the sources, value fixed by spec section 6:
4-byte size plus 4-byte type tag). -/
def boxHeaderSize : Nat := 8

/-- makeFixed32Uint from audiosamplentry.go: uint32(nr) << 16, re-widening the
stored integer sample rate to a 16.16 fixed-point field. -/
def makeFixed32Uint (nr : Nat) : Nat :=
  nr * 2 ^ 16 % 2 ^ 32

/-- makeUint16FromFixed32 from audiosamplentry.go: uint16(nr >> 16), keeping
only the integer part of a 16.16 fixed-point field. -/
def makeUint16FromFixed32 (nr : Nat) : Nat :=
  nr / 2 ^ 16 % 2 ^ 16

/-- StssBox: version, 24-bit flags, and the sample numbers in file order. -/
structure StssBox where
  version : Nat
  flags : Nat
  sampleNumber : List Nat
deriving DecidableEq

/-- Modelled from the spec: EsdsBox (elementary-stream descriptor child box)
is out of scope except as an opaque child; body stands for its encoded
payload after the 8-byte header. -/
structure EsdsBox where
  body : List Nat
deriving DecidableEq

/-- Modelled from the spec: SinfBox (encryption-scheme-information child box)
is out of scope except for the original-format tag stored in its frma child
(Sinf.Frma.DataFormat), which RemoveEncryption reads; body stands for the
rest of its encoded payload after the 8-byte header. -/
structure SinfBox where
  frmaDataFormat : String
  body : List Nat
deriving DecidableEq

/-- The closed world of box variants needed by the claims: the audio sample
entry container (fields of AudioSampleEntryBox inlined), the sync sample box,
the two recognized children, and the opaque byte-preserving fallback for any
other tag (spec section 9). -/
inductive Box where
  | audioEntry (name : String)
      (dataReferenceIndex channelCount sampleSize sampleRate : Nat)
      (esds : Option EsdsBox) (sinf : Option SinfBox) (children : List Box)
  | stss (b : StssBox)
  | esdsBox (e : EsdsBox)
  | sinfBox (s : SinfBox)
  | unknown (name : String) (body : List Nat)

/-- Box Type() method: the 4-character type tag. -/
def Box.type : Box → String
  | .audioEntry name _ _ _ _ _ _ _ => name
  | .stss _ => "stss"
  | .esdsBox _ => "esds"
  | .sinfBox _ => "sinf"
  | .unknown name _ => name

mutual

/-- Box Size() methods: 36 fixed bytes plus children for the audio sample
entry (AudioSampleEntryBox.Size), header + 8 + 4k for the sync sample box
(StssBox.Size), header plus payload for the opaque variants. -/
def Box.size : Box → Nat
  | .audioEntry _ _ _ _ _ _ _ children => 36 + sizeList children
  | .stss b => boxHeaderSize + 8 + 4 * b.sampleNumber.length
  | .esdsBox e => 8 + e.body.length
  | .sinfBox s => 8 + s.body.length
  | .unknown _ body => 8 + body.length

/-- Sum of the sizes of a child list, the fold inside
AudioSampleEntryBox.Size. -/
def sizeList : List Box → Nat
  | [] => 0
  | b :: bs => Box.size b + sizeList bs

end

mutual

/-- Bytes produced by the Encode(w io.Writer) methods: an 8-byte header
(EncodeHeader, spec section 6: 32-bit size then 4 tag bytes), the
variant-specific fixed fields, then the children in order.  StssBox.Encode
delegates to EncodeSW over a fresh slice writer and writes its bytes, so its
byte sequence is the one of EncodeSW. -/
def Box.encBytes : Box → List Nat
  | .audioEntry name d c s r e si children =>
      u32Bytes (Box.size (.audioEntry name d c s r e si children)) ++ tag4 name
        ++ List.replicate 6 0 ++ be16Bytes d ++ List.replicate 8 0
        ++ be16Bytes c ++ be16Bytes s ++ List.replicate 4 0
        ++ u32Bytes (makeFixed32Uint r) ++ encList children
  | .stss b =>
      u32Bytes (Box.size (.stss b)) ++ tag4 "stss"
        ++ u32Bytes (b.version * 2 ^ 24 + b.flags)
        ++ u32Bytes b.sampleNumber.length ++ flatMapB u32Bytes b.sampleNumber
  | .esdsBox e => u32Bytes (Box.size (.esdsBox e)) ++ tag4 "esds" ++ e.body
  | .sinfBox s => u32Bytes (Box.size (.sinfBox s)) ++ tag4 "sinf" ++ s.body
  | .unknown name body => u32Bytes (Box.size (.unknown name body)) ++ tag4 name ++ body

/-- Bytes of the children loop at the end of AudioSampleEntryBox.Encode. -/
def encList : List Box → List Nat
  | [] => []
  | b :: bs => Box.encBytes b ++ encList bs

end

mutual

/-- Bytes produced by the EncodeSW(sw bits.SliceWriter) methods; the field
sequence written is the same as for Encode (AudioSampleEntryBox.EncodeSW
writes header, fixed fields, then children via EncodeSW). -/
def Box.encBytesSW : Box → List Nat
  | .audioEntry name d c s r e si children =>
      u32Bytes (Box.size (.audioEntry name d c s r e si children)) ++ tag4 name
        ++ List.replicate 6 0 ++ be16Bytes d ++ List.replicate 8 0
        ++ be16Bytes c ++ be16Bytes s ++ List.replicate 4 0
        ++ u32Bytes (makeFixed32Uint r) ++ encListSW children
  | .stss b =>
      u32Bytes (Box.size (.stss b)) ++ tag4 "stss"
        ++ u32Bytes (b.version * 2 ^ 24 + b.flags)
        ++ u32Bytes b.sampleNumber.length ++ flatMapB u32Bytes b.sampleNumber
  | .esdsBox e => u32Bytes (Box.size (.esdsBox e)) ++ tag4 "esds" ++ e.body
  | .sinfBox s => u32Bytes (Box.size (.sinfBox s)) ++ tag4 "sinf" ++ s.body
  | .unknown name body => u32Bytes (Box.size (.unknown name body)) ++ tag4 name ++ body

/-- Bytes of the children loop at the end of AudioSampleEntryBox.EncodeSW. -/
def encListSW : List Box → List Nat
  | [] => []
  | b :: bs => Box.encBytesSW b ++ encListSW bs

end

/-- AudioSampleEntryBox struct from audiosamplentry.go: mutable name (type
tag), fixed audio header fields, typed lookup references to recognized
children (Esds, Sinf), and the owned child sequence. -/
structure AudioSampleEntryBox where
  name : String
  dataReferenceIndex : Nat
  channelCount : Nat
  sampleSize : Nat
  sampleRate : Nat
  esds : Option EsdsBox
  sinf : Option SinfBox
  children : List Box

/-- AudioSampleEntryBox.AddChild: switch on the child's type tag; for "esds"
and "sinf" store a typed reference via an unchecked Go type assertion (a
mismatching dynamic type panics, modelled as none), then append the child.
-/
def AudioSampleEntryBox.addChild (a : AudioSampleEntryBox) (child : Box) :
    Option AudioSampleEntryBox :=
  if child.type = "esds" then
    match child with
    | .esdsBox e => some { a with esds := some e, children := a.children ++ [child] }
    | _ => none
  else if child.type = "sinf" then
    match child with
    | .sinfBox s => some { a with sinf := some s, children := a.children ++ [child] }
    | _ => none
  else
    some { a with children := a.children ++ [child] }

/-- Whether the unchecked type assertions in AddChild succeed for this child:
a child tagged "esds" must dynamically be an EsdsBox and one tagged "sinf" a
SinfBox. -/
def childCastOk (child : Box) : Bool :=
  if child.type = "esds" then
    match child with
    | .esdsBox _ => true
    | _ => false
  else if child.type = "sinf" then
    match child with
    | .sinfBox _ => true
    | _ => false
  else true

/-- The removal loop inside RemoveEncryption: find the first child whose type
tag is "sinf" and drop it; none when no such child exists (then the loop
falls through without mutating). -/
def removeFirstSinf : List Box → Option (List Box)
  | [] => none
  | b :: rest =>
    if Box.type b = "sinf" then some rest
    else
      match removeFirstSinf rest with
      | some cs => some (b :: cs)
      | none => none

/-- AudioSampleEntryBox.RemoveEncryption: precondition errors for a tag other
than "enca" and for a missing Sinf reference; otherwise remove the first
"sinf" child (clearing the typed reference), rename the box to the format
tag recorded in the sinf box, and return the removed sinf box. -/
def AudioSampleEntryBox.removeEncryption (a : AudioSampleEntryBox) :
    Except String (SinfBox × AudioSampleEntryBox) :=
  if a.name ≠ "enca" then
    .error ("is not encrypted: " ++ a.name)
  else
    match a.sinf with
    | none => .error "does not have sinf box"
    | some sinf =>
      let a' :=
        match removeFirstSinf a.children with
        | some cs => { a with children := cs, sinf := none }
        | none => a
      .ok (sinf, { a' with name := sinf.frmaDataFormat })

/-- Outcome of a decode call: a returned box, a returned error, or a Go
runtime panic (crash) on an out-of-range slice index. -/
inductive DecodeResult (α : Type) where
  | ok (val : α)
  | err (msg : String)
  | crash

/-- Fixed-field part of DecodeAudioSampleEntry over the box body (after the
8-byte box header): skip 6 reserved bytes, 16-bit data-reference index, skip
8 reserved, 16-bit channel count, 16-bit sample size, skip 4, then the
16.16 fixed-point sample rate of which only the integer part is kept. -/
def parseAudioFixed (hdrName : String) (body : List Nat) : AudioSampleEntryBox :=
  { name := hdrName
    dataReferenceIndex := getU16 body 6
    channelCount := getU16 body 16
    sampleSize := getU16 body 18
    sampleRate := makeUint16FromFixed32 (getU32 body 24)
    esds := none
    sinf := none
    children := [] }

/-- The child loop of DecodeAudioSampleEntry.  The DecodeBox dispatcher is
not among the sources; the successful boxes it would yield from the
remaining bytes are abstracted as the input list (exhaustion of the list is
the io.EOF break).  Each iteration adds the child, advances the running
position by the child's Size(), stops when the position reaches the declared
end, and returns the bad-size error when it overshoots it. -/
def decodeChildren (name : String) (startPos declSize : Nat) :
    AudioSampleEntryBox → Nat → List Box → DecodeResult AudioSampleEntryBox
  | a, _, [] => .ok a
  | a, pos, box :: rest =>
    match a.addChild box with
    | none => .crash
    | some a' =>
      if pos + Box.size box = startPos + declSize then .ok a'
      else if pos + Box.size box > startPos + declSize then
        .err ("Bad size when decoding " ++ name)
      else decodeChildren name startPos declSize a' (pos + Box.size box) rest

/-- DecodeAudioSampleEntry: read the fixed 28 body bytes (Go panics when the
body is shorter, since the slice reader indexes unchecked), then decode
children from position startPos + 36 until the declared end
startPos + hdrSize. -/
def decodeAudioSampleEntry (hdrName : String) (hdrSize startPos : Nat)
    (body : List Nat) (childBoxes : List Box) : DecodeResult AudioSampleEntryBox :=
  if body.length < 28 then .crash
  else decodeChildren hdrName startPos hdrSize (parseAudioFixed hdrName body)
    (startPos + 36) childBoxes

/-- The entry-reading loop of DecodeStss: for i in [0, ec), read the 32-bit
sample number at offset 8 + 4i; Go panics (crash) when the slice range
12 + 4i exceeds the body length. -/
def readStssEntries (data : List Nat) : Nat → Nat → DecodeResult (List Nat)
  | _, 0 => .ok []
  | i, n + 1 =>
    match readU32 data (8 + 4 * i) with
    | none => .crash
    | some sample =>
      match readStssEntries data (i + 1) n with
      | .ok rest => .ok (sample :: rest)
      | .err m => .err m
      | .crash => .crash

/-- DecodeStss over the box body: a 32-bit version-and-flags word (version is
its top byte, flags its low 24 bits, the flagsMask constant being 0xffffff),
a 32-bit entry count ec, then ec 32-bit sample numbers.  All slice indexing
is unchecked in the source, so a body too short for the header words or for
the declared count crashes instead of returning an error. -/
def decodeStss (body : List Nat) : DecodeResult StssBox :=
  match readU32 body 0 with
  | none => .crash
  | some versionAndFlags =>
    match readU32 body 4 with
    | none => .crash
    | some ec =>
      match readStssEntries body 0 ec with
      | .ok samples =>
          .ok { version := versionAndFlags / 2 ^ 24 % 256
                flags := versionAndFlags % 2 ^ 24
                sampleNumber := samples }
      | .err m => .err m
      | .crash => .crash

/-- The binary-search loop of StssBox.IsSyncSample, with the standard fuel
embedding of the Go for-loop (each iteration shrinks j - i by at least one,
so any fuel of at least j - i reproduces the loop exactly): narrow [i, j) to
the lowest index whose sample number is at least the target. -/
def stssSearchGo (s : List Nat) (target : Nat) : Nat → Nat → Nat → Nat
  | 0, i, _ => i
  | fuel + 1, i, j =>
    if i < j then
      let h := (i + j) / 2
      if s.getD h 0 < target then stssSearchGo s target fuel (h + 1) j
      else stssSearchGo s target fuel i h
    else i

/-- StssBox.IsSyncSample: binary search for an exact match of the (one-based)
sample number; true when the found position is in range and holds the
target. -/
def StssBox.isSyncSample (b : StssBox) (sampleNr : Nat) : Bool :=
  let nrSamples := b.sampleNumber.length
  let i := stssSearchGo b.sampleNumber sampleNr nrSamples 0 nrSamples
  decide (i < nrSamples) && decide (b.sampleNumber.getD i 0 = sampleNr)

/-- Whether a three-byte start code 0x000001 occurs anywhere in the buffer
(a four-byte code 0x00000001 contains one at its second byte, so this also
detects four-byte codes). -/
def containsSC : List Nat → Bool
  | 0 :: 0 :: 1 :: _ => true
  | _ :: rest => containsSC rest
  | [] => false

/-- Whether the buffer begins with a start code: the four-byte code
0x00000001, or else the three-byte code 0x000001 (checked in this order by
the scanner). -/
def matchesCode : List Nat → Bool
  | 0 :: 0 :: 0 :: 1 :: _ => true
  | 0 :: 0 :: 1 :: _ => true
  | _ => false

/-- Payload emitted when the scanner reaches a start code or the end of the
buffer: nothing when no unit was open. -/
def emitList : Option (List Nat) → List (List Nat)
  | none => []
  | some cur => [cur]

/-- Modelled from the spec: the Annex-B Stream Scanner loop (spec section
4.4; the implementation file is not under the sources, only its tests).
Walk the buffer byte by byte; at a four-byte or three-byte start code close
the open unit (if any) and open a new one; before the first start code skip
bytes without collecting; at the end of the buffer emit the open unit, but a
lone trailing start code with no payload yields nothing. -/
def extractNalusAux : List Nat → Option (List Nat) → List (List Nat)
  | 0 :: 0 :: 0 :: 1 :: rest, acc => emitList acc ++ extractNalusAux rest (some [])
  | 0 :: 0 :: 1 :: rest, acc => emitList acc ++ extractNalusAux rest (some [])
  | _ :: rest, none => extractNalusAux rest none
  | b :: rest, some cur => extractNalusAux rest (some (cur ++ [b]))
  | [], none => []
  | [], some cur => if cur = [] then [] else [cur]

/-- Modelled from the spec: ExtractNalusFromByteStream — the ordered NAL unit
payloads of a start-code-delimited buffer, start codes stripped; no valid
start code yields the empty result, never an error. -/
def ExtractNalusFromByteStream (stream : List Nat) : List (List Nat) :=
  extractNalusAux stream none

/-- NAL unit type: the low five bits of the first payload byte. -/
def naluType (nalu : List Nat) : Nat :=
  nalu.headD 0 % 32

/-- Modelled from the spec: GetParameterSetsFromByteStream (spec section
4.6) — scan the buffer, keep the NAL units whose type is 7 (SPS) and 8
(PPS) in first-seen order, and return absent (none, the Go nil slice)
rather than an allocated empty sequence when none are found. -/
def GetParameterSetsFromByteStream (stream : List Nat) :
    Option (List (List Nat)) × Option (List (List Nat)) :=
  let nalus := ExtractNalusFromByteStream stream
  let spsList := nalus.filter (fun nalu => naluType nalu == 7)
  let ppsList := nalus.filter (fun nalu => naluType nalu == 8)
  ((if spsList.isEmpty then none else some spsList),
   (if ppsList.isEmpty then none else some ppsList))

/-- Modelled from the spec: ConvertByteStreamToNaluSample (ToSampleFormat,
spec section 4.5) — for each NAL unit found by the scanner emit its 4-byte
big-endian length then its bytes, in order. -/
def ConvertByteStreamToNaluSample (stream : List Nat) : List Nat :=
  flatMapB (fun nalu => u32Bytes nalu.length ++ nalu)
    (ExtractNalusFromByteStream stream)

/-- Modelled from the spec: ConvertSampleToByteStream (ToByteStream, spec
section 4.5) — read each unit's 4-byte big-endian length, emit the canonical
4-byte start code then the payload, in order; fewer than four remaining
bytes end the loop. -/
def ConvertSampleToByteStream : List Nat → List Nat
  | b0 :: b1 :: b2 :: b3 :: rest =>
    let n := b0 * 2 ^ 24 + b1 * 2 ^ 16 + b2 * 2 ^ 8 + b3
    [0, 0, 0, 1] ++ rest.take n ++ ConvertSampleToByteStream (rest.drop n)
  | [] => []
  | [_] => []
  | [_, _] => []
  | [_, _, _] => []
termination_by l => l.length
decreasing_by simp; omega

/-- The two legal start-code widths of an Annex-B stream. -/
inductive StartCode where
  | sc3
  | sc4
deriving DecidableEq

/-- The bytes of a start code. -/
def StartCode.bytes : StartCode → List Nat
  | .sc3 => [0, 0, 1]
  | .sc4 => [0, 0, 0, 1]

/-- An Annex-B buffer assembled from start-code-delimited NAL units. -/
def buildAnnexB : List (StartCode × List Nat) → List Nat
  | [] => []
  | u :: us => u.1.bytes ++ u.2 ++ buildAnnexB us

/-- Well-formedness of one delimited NAL unit (spec sections 3 and 6): the
payload is non-empty, start codes occur only as delimiters (no 0x000001
inside a payload and no payload ending in a zero byte, which would fuse with
the next start code), and the payload length fits the 4-byte length field.
-/
abbrev wfUnit (u : StartCode × List Nat) : Prop :=
  u.2 ≠ [] ∧ containsSC u.2 = false ∧ u.2.getLast? ≠ some 0 ∧ u.2.length < 2 ^ 32

/-! ## Size and encoding length -/

theorem tag4_length (s : String) : (tag4 s).length = 4 := by
  simp [tag4]

mutual

theorem encBytes_length : ∀ b : Box, (Box.encBytes b).length = Box.size b
  | .audioEntry name d c s r e si children => by
    have h := encList_length children
    simp [Box.encBytes, Box.size, u32Bytes, tag4, be16Bytes] at h ⊢
    omega
  | .stss b => by
    have h : (flatMapB u32Bytes b.sampleNumber).length = 4 * b.sampleNumber.length := by
      induction b.sampleNumber with
      | nil => simp [flatMapB]
      | cons x xs ih => simp [flatMapB, u32Bytes] at ih ⊢; omega
    simp [Box.encBytes, Box.size, u32Bytes, tag4, boxHeaderSize] at h ⊢
    omega
  | .esdsBox e => by simp [Box.encBytes, Box.size, u32Bytes, tag4]; omega
  | .sinfBox s => by simp [Box.encBytes, Box.size, u32Bytes, tag4]; omega
  | .unknown name body => by simp [Box.encBytes, Box.size, u32Bytes, tag4]; omega

theorem encList_length : ∀ bs : List Box, (encList bs).length = sizeList bs
  | [] => by simp [encList, sizeList]
  | b :: bs => by
    have h1 := encBytes_length b
    have h2 := encList_length bs
    simp [encList, sizeList, h1, h2]

end

mutual

theorem encBytesSW_length : ∀ b : Box, (Box.encBytesSW b).length = Box.size b
  | .audioEntry name d c s r e si children => by
    have h := encListSW_length children
    simp [Box.encBytesSW, Box.size, u32Bytes, tag4, be16Bytes] at h ⊢
    omega
  | .stss b => by
    have h : (flatMapB u32Bytes b.sampleNumber).length = 4 * b.sampleNumber.length := by
      induction b.sampleNumber with
      | nil => simp [flatMapB]
      | cons x xs ih => simp [flatMapB, u32Bytes] at ih ⊢; omega
    simp [Box.encBytesSW, Box.size, u32Bytes, tag4, boxHeaderSize] at h ⊢
    omega
  | .esdsBox e => by simp [Box.encBytesSW, Box.size, u32Bytes, tag4]; omega
  | .sinfBox s => by simp [Box.encBytesSW, Box.size, u32Bytes, tag4]; omega
  | .unknown name body => by simp [Box.encBytesSW, Box.size, u32Bytes, tag4]; omega

theorem encListSW_length : ∀ bs : List Box, (encListSW bs).length = sizeList bs
  | [] => by simp [encListSW, sizeList]
  | b :: bs => by
    have h1 := encBytesSW_length b
    have h2 := encListSW_length bs
    simp [encListSW, sizeList, h1, h2]

end

/-- C1: for every box (in particular every AudioSampleEntryBox and every
StssBox) the number of bytes Encode and EncodeSW write on success is exactly
the Size() queried before encoding; for the audio sample entry that size is
36 plus the sum of the children's sizes, and for a sync-sample box with k
sample numbers it is 8 (header) + 8 + 4k. -/
theorem encode_writes_size_bytes :
    (∀ b : Box, (Box.encBytes b).length = Box.size b
      ∧ (Box.encBytesSW b).length = Box.size b)
    ∧ (∀ name d c s r e si children,
        Box.size (Box.audioEntry name d c s r e si children) = 36 + sizeList children)
    ∧ (∀ b : StssBox, Box.size (Box.stss b) = 8 + (8 + 4 * b.sampleNumber.length)) :=
  ⟨fun b => ⟨encBytes_length b, encBytesSW_length b⟩,
   fun _ _ _ _ _ _ _ _ => rfl,
   fun b => by simp [Box.size, boxHeaderSize]; omega⟩

/-! ## AddChild type assertions -/

/-- C10: AddChild is total only when tag and dynamic type agree — a child
whose Type() is "esds" or "sinf" but whose dynamic type is the opaque
unknown box makes the unchecked Go type assertion panic (none), while a
genuine EsdsBox or SinfBox child is appended and referenced. -/
theorem addChild_crashes_on_tag_type_mismatch :
    (∀ (a : AudioSampleEntryBox) (body : List Nat),
        a.addChild (Box.unknown "esds" body) = none)
    ∧ (∀ (a : AudioSampleEntryBox) (body : List Nat),
        a.addChild (Box.unknown "sinf" body) = none)
    ∧ (∀ (a : AudioSampleEntryBox) (e : EsdsBox),
        a.addChild (Box.esdsBox e) =
          some { a with esds := some e, children := a.children ++ [Box.esdsBox e] })
    ∧ (∀ (a : AudioSampleEntryBox) (s : SinfBox),
        a.addChild (Box.sinfBox s) =
          some { a with sinf := some s, children := a.children ++ [Box.sinfBox s] }) :=
  ⟨fun _ _ => rfl, fun _ _ => rfl, fun _ _ => rfl, fun _ _ => rfl⟩

/-! ## DecodeStss truncation behavior -/

/-- C6 (code bug evidence): an stss body whose 32-bit entry count declares
more sample entries than the remaining bytes can hold — here version/flags
0, entry count 1 and no entry bytes — makes DecodeStss crash on unchecked
slice indexing (data[8:12] with len(data) = 8) instead of returning a
truncation error to the caller. -/
theorem decodeStss_crash_on_overdeclared_count :
    decodeStss [0, 0, 0, 0, 0, 0, 0, 1] = DecodeResult.crash := by
  rfl

/-! ## Parameter-set extraction -/

/-- The byte stream of spec scenario 4: AUD(9), SPS(7, payload 5 4),
PPS(8, payload 1 2), then two IDR(5) units, each with a 4-byte start code
(the input of TestGetParameterSetsFromByteStream). -/
def annexBScenario4 : List Nat :=
  [0, 0, 0, 1, 9, 2,
   0, 0, 0, 1, 7, 5, 4,
   0, 0, 0, 1, 8, 1, 2,
   0, 0, 0, 1, 5, 0,
   0, 0, 0, 1, 5, 0]

/-- C4 (counterexample): on scenario 4 the extractor does not return SPS
list [[5, 4]] and PPS list [[1, 2]] — the collected units keep their 1-byte
NAL header, as the repository's own test expects. -/
theorem getParameterSets_scenario4_ne_claim :
    GetParameterSetsFromByteStream annexBScenario4
      ≠ (some [[5, 4]], some [[1, 2]]) := by
  decide

/-- C4 (amended): on scenario 4 the extractor returns SPS list [[7, 5, 4]]
and PPS list [[8, 1, 2]] — the full SPS and PPS NAL units including their
type byte — and the AUD and IDR units appear in neither output. -/
theorem getParameterSets_scenario4_eval :
    GetParameterSetsFromByteStream annexBScenario4
      = (some [[7, 5, 4]], some [[8, 1, 2]]) := by
  decide

/-! ## IsSyncSample binary search -/

theorem stssSearchGo_spec (s : List Nat) (t : Nat) :
    ∀ fuel i j : Nat, j - i ≤ fuel → i ≤ j → j ≤ s.length →
      (∀ k, k < i → s.getD k 0 < t) →
      (∀ k, j ≤ k → k < s.length → t ≤ s.getD k 0) →
      (∀ k l, k ≤ l → l < s.length → s.getD k 0 ≤ s.getD l 0) →
      i ≤ stssSearchGo s t fuel i j ∧ stssSearchGo s t fuel i j ≤ j
        ∧ (∀ k, k < stssSearchGo s t fuel i j → s.getD k 0 < t)
        ∧ (∀ k, stssSearchGo s t fuel i j ≤ k → k < s.length → t ≤ s.getD k 0) := by
  intro fuel
  induction fuel with
  | zero =>
    intro i j hfuel hij hj hlo hhi _
    have hij' : i = j := by omega
    simp only [stssSearchGo]
    exact ⟨le_refl i, hij, hlo, fun k hk hk' => hhi k (by omega) hk'⟩
  | succ fuel ih =>
    intro i j hfuel hij hj hlo hhi hmono
    simp only [stssSearchGo]
    by_cases hlt : i < j
    · simp only [if_pos hlt]
      have hm1 : i ≤ (i + j) / 2 := by omega
      have hm2 : (i + j) / 2 < j := by omega
      by_cases hc : s.getD ((i + j) / 2) 0 < t
      · simp only [if_pos hc]
        have hres := ih ((i + j) / 2 + 1) j (by omega) (by omega) hj
          (fun k hk => by
            have hkm : k ≤ (i + j) / 2 := by omega
            exact lt_of_le_of_lt (hmono k ((i + j) / 2) hkm (by omega)) hc)
          hhi hmono
        exact ⟨by omega, hres.2.1, hres.2.2.1, hres.2.2.2⟩
      · simp only [if_neg hc]
        have hres := ih i ((i + j) / 2) (by omega) (by omega) (by omega) hlo
          (fun k hk hk' => le_trans (le_of_not_lt hc)
            (hmono ((i + j) / 2) k hk hk'))
          hmono
        exact ⟨hres.1, by omega, hres.2.2.1, hres.2.2.2⟩
    · simp only [if_neg hlt]
      have hij' : i = j := by omega
      exact ⟨le_refl i, hij, hlo, fun k hk hk' => hhi k (by omega) hk'⟩

/-- C2: for every StssBox whose sample-number sequence is strictly ascending
and every sample number n, IsSyncSample n is true exactly when n occurs in
the sequence; for an empty sequence it is always false.  The operation is a
pure function of the box (the embedding returns a Bool and leaves the box
untouched), matching the no-side-effects clause. -/
theorem isSyncSample_iff_mem :
    (∀ (b : StssBox) (n : Nat), List.Pairwise (· < ·) b.sampleNumber →
        (b.isSyncSample n = true ↔ n ∈ b.sampleNumber))
    ∧ (∀ (b : StssBox) (n : Nat), b.sampleNumber = [] →
        b.isSyncSample n = false) := by
  constructor
  · intro b n hsort
    set s := b.sampleNumber with hs
    have hmono : ∀ k l, k ≤ l → l < s.length → s.getD k 0 ≤ s.getD l 0 := by
      intro k l hkl hl
      rcases Nat.eq_or_lt_of_le hkl with rfl | hklt
      · exact le_refl _
      · have hk : k < s.length := by omega
        have := (List.pairwise_iff_getElem.mp hsort) k l hk hl hklt
        rw [List.getD_eq_getElem s 0 hk, List.getD_eq_getElem s 0 hl]
        exact le_of_lt this
    have hspec := stssSearchGo_spec s n s.length 0 s.length (by omega) (by omega)
      (le_refl _) (fun k hk => absurd hk (by omega))
      (fun k hk hk' => absurd hk' (by omega)) hmono
    set r := stssSearchGo s n s.length 0 s.length with hr
    constructor
    · intro htrue
      simp only [StssBox.isSyncSample, ← hs, ← hr, Bool.and_eq_true,
        decide_eq_true_eq] at htrue
      obtain ⟨hrlen, hrval⟩ := htrue
      rw [List.getD_eq_getElem s 0 hrlen] at hrval
      rw [← hrval]
      exact List.getElem_mem hrlen
    · intro hmem
      obtain ⟨m, hm, hval⟩ := List.mem_iff_getElem.mp hmem
      have hrm : r ≤ m := by
        by_contra hcon
        have := hspec.2.2.1 m (by omega)
        rw [List.getD_eq_getElem s 0 hm, hval] at this
        omega
      have hrlen : r < s.length := by omega
      have h1 : n ≤ s.getD r 0 := hspec.2.2.2 r (le_refl _) hrlen
      have h2 : s.getD r 0 ≤ s.getD m 0 := hmono r m hrm hm
      rw [List.getD_eq_getElem s 0 hm, hval] at h2
      have hval' : s.getD r 0 = n := by omega
      simp only [StssBox.isSyncSample, ← hs, ← hr, Bool.and_eq_true,
        decide_eq_true_eq]
      exact ⟨hrlen, hval'⟩
  · intro b n hemp
    simp [StssBox.isSyncSample, hemp, stssSearchGo]

/-- Witness for C2 at a concrete box: the ascending sequence 2, 5, 9 and the
empty sequence. -/
theorem isSyncSample_iff_mem_witness :
    ((StssBox.mk 0 0 [2, 5, 9]).isSyncSample 5 = true ↔ 5 ∈ [2, 5, 9])
    ∧ (StssBox.mk 0 0 []).isSyncSample 7 = false :=
  ⟨isSyncSample_iff_mem.1 ⟨0, 0, [2, 5, 9]⟩ 5 (by decide),
   isSyncSample_iff_mem.2 ⟨0, 0, []⟩ 7 rfl⟩

/-! ## RemoveEncryption -/

theorem removeFirstSinf_append (s : SinfBox) :
    ∀ (pre post : List Box), (∀ b ∈ pre, Box.type b ≠ "sinf") →
      removeFirstSinf (pre ++ Box.sinfBox s :: post) = some (pre ++ post)
  | [], post, _ => by simp [removeFirstSinf, Box.type]
  | b :: pre, post, h => by
    have hb : Box.type b ≠ "sinf" := h b (by simp)
    have ih := removeFirstSinf_append s pre post (fun x hx => h x (by simp [hx]))
    simp [removeFirstSinf, hb, ih]

/-- C3: RemoveEncryption returns a precondition error (no mutation happens,
the call returns before touching the box) whenever the tag is not "enca" or
no sinf child reference is present; on success — here under the spec
invariant that the typed Sinf reference aliases the unique "sinf"-tagged
entry of the child sequence — it removes that child, clears the typed
reference, renames the box to the format tag stored inside the removed sinf
box and returns the removed sinf box, the child list then containing no
"sinf"-tagged box. -/
theorem removeEncryption_spec :
    (∀ a : AudioSampleEntryBox, a.name ≠ "enca" →
        a.removeEncryption = Except.error ("is not encrypted: " ++ a.name))
    ∧ (∀ a : AudioSampleEntryBox, a.name = "enca" → a.sinf = none →
        a.removeEncryption = Except.error "does not have sinf box")
    ∧ (∀ (a : AudioSampleEntryBox) (s : SinfBox) (pre post : List Box),
        a.name = "enca" → a.sinf = some s →
        a.children = pre ++ Box.sinfBox s :: post →
        (∀ b ∈ pre, Box.type b ≠ "sinf") →
        (∀ b ∈ post, Box.type b ≠ "sinf") →
        a.removeEncryption = Except.ok (s,
          { a with name := s.frmaDataFormat, sinf := none, children := pre ++ post })
        ∧ (∀ b ∈ pre ++ post, Box.type b ≠ "sinf")) := by
  refine ⟨fun a h => ?_, fun a h1 h2 => ?_, fun a s pre post h1 h2 hch hpre hpost => ?_⟩
  · simp [AudioSampleEntryBox.removeEncryption, h]
  · simp [AudioSampleEntryBox.removeEncryption, h1, h2]
  · constructor
    · simp [AudioSampleEntryBox.removeEncryption, h1, h2, hch,
        removeFirstSinf_append s pre post hpre]
    · intro b hb
      rcases List.mem_append.mp hb with hb' | hb'
      · exact hpre b hb'
      · exact hpost b hb'

/-- Witness for C3: a concrete encrypted audio entry with one other child
and one sinf child. -/
theorem removeEncryption_spec_witness :
    (AudioSampleEntryBox.mk "enca" 1 2 16 44100 none (some ⟨"mp4a", []⟩)
        [Box.unknown "btrt" [], Box.sinfBox ⟨"mp4a", []⟩]).removeEncryption
      = Except.ok (⟨"mp4a", []⟩,
          AudioSampleEntryBox.mk "mp4a" 1 2 16 44100 none none
            [Box.unknown "btrt" []]) :=
  (removeEncryption_spec.2.2
    (AudioSampleEntryBox.mk "enca" 1 2 16 44100 none (some ⟨"mp4a", []⟩)
      [Box.unknown "btrt" [], Box.sinfBox ⟨"mp4a", []⟩])
    ⟨"mp4a", []⟩ [Box.unknown "btrt" []] []
    rfl rfl rfl (by decide) (by decide)).1

/-! ## Child-loop size consistency -/

theorem addChild_isSome (a : AudioSampleEntryBox) (child : Box)
    (h : childCastOk child = true) : ∃ a', a.addChild child = some a' := by
  cases child with
  | esdsBox e => exact ⟨_, rfl⟩
  | sinfBox s => exact ⟨_, rfl⟩
  | stss b => exact ⟨_, rfl⟩
  | audioEntry name d c s r e si children =>
    by_cases h1 : name = "esds"
    · simp [childCastOk, Box.type, h1] at h
    · by_cases h2 : name = "sinf"
      · simp [childCastOk, Box.type, h1, h2] at h
      · exact ⟨{ a with children :=
            a.children ++ [Box.audioEntry name d c s r e si children] },
          by simp [AudioSampleEntryBox.addChild, Box.type, h1, h2]⟩
  | unknown name body =>
    by_cases h1 : name = "esds"
    · simp [childCastOk, Box.type, h1] at h
    · by_cases h2 : name = "sinf"
      · simp [childCastOk, Box.type, h1, h2] at h
      · exact ⟨{ a with children := a.children ++ [Box.unknown name body] },
          by simp [AudioSampleEntryBox.addChild, Box.type, h1, h2]⟩

theorem decodeChildren_overshoot (name : String) (startPos declSize : Nat) :
    ∀ (pre : List Box) (c : Box) (rest : List Box) (a : AudioSampleEntryBox)
      (pos : Nat),
      (∀ b ∈ pre ++ [c], childCastOk b = true) →
      (∀ k, k ≤ pre.length → pos + sizeList (pre.take k) < startPos + declSize) →
      startPos + declSize < pos + sizeList pre + Box.size c →
      decodeChildren name startPos declSize a pos (pre ++ c :: rest)
        = DecodeResult.err ("Bad size when decoding " ++ name) := by
  intro pre
  induction pre with
  | nil =>
    intro c rest a pos hcast hpre hover
    obtain ⟨a', ha'⟩ := addChild_isSome a c (hcast c (by simp))
    have h0 := hpre 0 (by simp)
    simp only [List.take_nil, sizeList] at h0 hover
    simp only [List.nil_append, decodeChildren, ha']
    rw [if_neg (by omega), if_pos (by omega)]
  | cons b pre ih =>
    intro c rest a pos hcast hpre hover
    obtain ⟨a', ha'⟩ := addChild_isSome a b (hcast b (by simp))
    have h1 := hpre 1 (by simp)
    simp only [List.take_succ_cons, List.take_nil, sizeList] at h1
    simp only [List.cons_append, decodeChildren, ha']
    rw [if_neg (by omega), if_neg (by omega)]
    apply ih c rest a' (pos + Box.size b)
    · intro x hx
      apply hcast x
      simp only [List.cons_append, List.mem_cons]
      exact Or.inr hx
    · intro k hk
      have h2 := hpre (k + 1) (by simpa using hk)
      simp only [List.take_succ_cons, sizeList] at h2
      omega
    · simp only [sizeList] at hover
      omega

/-- C7: whenever accumulating a decoded child's size makes the running
position of DecodeAudioSampleEntry overshoot the declared end
startPos + hdrSize strictly, decoding returns the bad-size error carrying
the box's type tag (hdrName) instead of truncating silently.  The prefix
hypothesis says the loop is still running when that child is reached; the
cast hypothesis says the children pass AddChild's type assertions, as all
boxes produced by the dispatcher do. -/
theorem decodeAudioSampleEntry_overshoot_err :
    ∀ (hdrName : String) (hdrSize startPos : Nat) (body : List Nat)
      (pre : List Box) (c : Box) (rest : List Box),
      28 ≤ body.length →
      (∀ b ∈ pre ++ [c], childCastOk b = true) →
      (∀ k, k ≤ pre.length →
        startPos + 36 + sizeList (pre.take k) < startPos + hdrSize) →
      startPos + hdrSize < startPos + 36 + sizeList pre + Box.size c →
      decodeAudioSampleEntry hdrName hdrSize startPos body (pre ++ c :: rest)
        = DecodeResult.err ("Bad size when decoding " ++ hdrName) := by
  intro hdrName hdrSize startPos body pre c rest h28 hcast hpre hover
  unfold decodeAudioSampleEntry
  rw [if_neg (by omega)]
  exact decodeChildren_overshoot hdrName startPos hdrSize pre c rest _ _
    hcast hpre hover

/-- Witness for C7: a 52-byte mp4a box whose single child declares 17 bytes,
overshooting the declared end 52 by one byte. -/
theorem decodeAudioSampleEntry_overshoot_err_witness :
    decodeAudioSampleEntry "mp4a" 52 0 (List.replicate 28 0)
        ([] ++ Box.unknown "free" (List.replicate 9 0) :: [])
      = DecodeResult.err ("Bad size when decoding " ++ "mp4a") :=
  decodeAudioSampleEntry_overshoot_err "mp4a" 52 0 (List.replicate 28 0)
    [] (Box.unknown "free" (List.replicate 9 0)) []
    (by decide) (by decide) (by decide) (by decide)

/-! ## Fixed-point sample rate -/

theorem getD_lt_256 (l : List Nat) (hb : ∀ x ∈ l, x < 256) (off : Nat)
    (hoff : off < l.length) : l.getD off 0 < 256 := by
  rw [List.getD_eq_getElem l 0 hoff]
  exact hb _ (List.getElem_mem hoff)

/-- C8: decoding an audio sample entry keeps only the top 16 bits of the
32-bit 16.16 fixed-point sample-rate field at body offset 24, and encoding
re-widens the stored integer by a 16-bit left shift; hence the re-encoded
field equals the original with its low 16 bits zeroed — unchanged exactly
when the fraction bits were zero, and different whenever they were not.  The
last clause locates the re-widened field in the encoder output: bytes 32-35
of the encoded box (offset 24 of the body after the 8-byte header). -/
theorem sampleRate_fixed_point_truncation :
    ∀ (hdrName : String) (body : List Nat), 28 ≤ body.length →
      (∀ x ∈ body, x < 256) →
      (parseAudioFixed hdrName body).sampleRate = getU32 body 24 / 2 ^ 16
      ∧ makeFixed32Uint ((parseAudioFixed hdrName body).sampleRate)
          = getU32 body 24 - getU32 body 24 % 2 ^ 16
      ∧ (getU32 body 24 % 2 ^ 16 = 0 →
          makeFixed32Uint ((parseAudioFixed hdrName body).sampleRate)
            = getU32 body 24)
      ∧ (getU32 body 24 % 2 ^ 16 ≠ 0 →
          makeFixed32Uint ((parseAudioFixed hdrName body).sampleRate)
            ≠ getU32 body 24)
      ∧ ∀ d c s e si children,
          ((Box.encBytes (Box.audioEntry hdrName d c s
              ((parseAudioFixed hdrName body).sampleRate) e si children)).drop
                32).take 4
            = u32Bytes (makeFixed32Uint
                ((parseAudioFixed hdrName body).sampleRate)) := by
  intro hdrName body h28 hb
  have b0 := getD_lt_256 body hb 24 (by omega)
  have b1 := getD_lt_256 body hb 25 (by omega)
  have b2 := getD_lt_256 body hb 26 (by omega)
  have b3 := getD_lt_256 body hb 27 (by omega)
  have hx : getU32 body 24 < 2 ^ 32 := by
    simp only [getU32] at b0 b1 b2 b3 ⊢
    norm_num at b0 b1 b2 b3 ⊢
    omega
  have hrate : (parseAudioFixed hdrName body).sampleRate = getU32 body 24 / 2 ^ 16 := by
    simp only [parseAudioFixed, makeUint16FromFixed32]
    omega
  refine ⟨hrate, ?_, ?_, ?_, ?_⟩
  · rw [hrate]
    simp only [makeFixed32Uint]
    omega
  · intro h0
    rw [hrate]
    simp only [makeFixed32Uint]
    omega
  · intro h0
    rw [hrate]
    simp only [makeFixed32Uint]
    omega
  · intro d c s e si children
    rw [hrate]
    have henc : Box.encBytes (Box.audioEntry hdrName d c s
        (getU32 body 24 / 2 ^ 16) e si children)
        = (u32Bytes (Box.size (Box.audioEntry hdrName d c s
              (getU32 body 24 / 2 ^ 16) e si children)) ++ tag4 hdrName
            ++ List.replicate 6 0 ++ be16Bytes d ++ List.replicate 8 0
            ++ be16Bytes c ++ be16Bytes s ++ List.replicate 4 0)
          ++ (u32Bytes (makeFixed32Uint (getU32 body 24 / 2 ^ 16))
              ++ encList children) := by
      simp [Box.encBytes, List.append_assoc]
    rw [henc]
    rw [List.drop_left' (by simp [u32Bytes, tag4, be16Bytes])]
    rw [List.take_left' (by simp [u32Bytes])]

/-- Witness for C8: a 28-byte body whose sample-rate field is 0x00018000
(integer part 1, fraction bits 0x8000): the stored rate is 1 and the
re-encoded field 0x00010000 differs from the original. -/
theorem sampleRate_fixed_point_truncation_witness :
    (parseAudioFixed "mp4a" (List.replicate 24 0 ++ [0, 1, 128, 0])).sampleRate
      = getU32 (List.replicate 24 0 ++ [0, 1, 128, 0]) 24 / 2 ^ 16
    ∧ makeFixed32Uint ((parseAudioFixed "mp4a"
          (List.replicate 24 0 ++ [0, 1, 128, 0])).sampleRate)
        ≠ getU32 (List.replicate 24 0 ++ [0, 1, 128, 0]) 24 :=
  ⟨(sampleRate_fixed_point_truncation "mp4a"
      (List.replicate 24 0 ++ [0, 1, 128, 0]) (by decide) (by decide)).1,
   (sampleRate_fixed_point_truncation "mp4a"
      (List.replicate 24 0 ++ [0, 1, 128, 0]) (by decide) (by decide)).2.2.2.1
      (by decide)⟩

/-! ## Scanner lemmas -/

theorem aux_skip_some (b : Nat) (rest cur : List Nat)
    (h : matchesCode (b :: rest) = false) :
    extractNalusAux (b :: rest) (some cur)
      = extractNalusAux rest (some (cur ++ [b])) := by
  match b, rest, h with
  | b + 1, rest, _ => rfl
  | 0, [], _ => rfl
  | 0, (c + 1) :: rest, _ => rfl
  | 0, 0 :: [], _ => rfl
  | 0, 0 :: 1 :: rest, h => exact Bool.noConfusion h
  | 0, 0 :: (d + 2) :: rest, _ => rfl
  | 0, 0 :: 0 :: [], _ => rfl
  | 0, 0 :: 0 :: 1 :: rest, h => exact Bool.noConfusion h
  | 0, 0 :: 0 :: 0 :: rest, _ => rfl
  | 0, 0 :: 0 :: (e + 2) :: rest, _ => rfl

theorem aux_skip_none (b : Nat) (rest : List Nat)
    (h : matchesCode (b :: rest) = false) :
    extractNalusAux (b :: rest) none = extractNalusAux rest none := by
  match b, rest, h with
  | b + 1, rest, _ => rfl
  | 0, [], _ => rfl
  | 0, (c + 1) :: rest, _ => rfl
  | 0, 0 :: [], _ => rfl
  | 0, 0 :: 1 :: rest, h => exact Bool.noConfusion h
  | 0, 0 :: (d + 2) :: rest, _ => rfl
  | 0, 0 :: 0 :: [], _ => rfl
  | 0, 0 :: 0 :: 1 :: rest, h => exact Bool.noConfusion h
  | 0, 0 :: 0 :: 0 :: rest, _ => rfl
  | 0, 0 :: 0 :: (e + 2) :: rest, _ => rfl

theorem containsSC_false_cons (a : Nat) (l : List Nat)
    (h : containsSC (a :: l) = false) : containsSC l = false := by
  match a, l, h with
  | a + 1, l, h => exact h
  | 0, [], _ => rfl
  | 0, (b + 1) :: l, h => exact h
  | 0, 0 :: [], h => exact h
  | 0, 0 :: 1 :: l, h => exact Bool.noConfusion h
  | 0, 0 :: 0 :: l, h => exact h
  | 0, 0 :: (c + 2) :: l, h => exact h

theorem matches_false_of_no_sc (l : List Nat) (h : containsSC l = false) :
    matchesCode l = false := by
  match l, h with
  | [], _ => rfl
  | (a + 1) :: l, _ => rfl
  | [0], _ => rfl
  | 0 :: (b + 1) :: l, _ => rfl
  | [0, 0], _ => rfl
  | 0 :: 0 :: 1 :: xs, h => exact Bool.noConfusion h
  | 0 :: 0 :: (b + 2) :: l, _ => rfl
  | [0, 0, 0], _ => rfl
  | 0 :: 0 :: 0 :: 1 :: xs, h => exact Bool.noConfusion h
  | 0 :: 0 :: 0 :: 0 :: l, _ => rfl
  | 0 :: 0 :: 0 :: (d + 2) :: l, _ => rfl

/-- No start-code match can begin inside a well-delimited payload: when the
payload contains no start code and does not end in a zero byte, no suffix of
it — even continued by arbitrary following bytes — begins with a start
code. -/
theorem payload_no_code : ∀ p : List Nat, containsSC p = false →
    p.getLast? ≠ some 0 → ∀ (t : List Nat) (n : Nat), n < p.length →
    matchesCode (p.drop n ++ t) = false := by
  intro p
  induction p with
  | nil => intro _ _ t n hn; simp at hn
  | cons a p ih =>
    intro hsc hlast t n hn
    cases n with
    | succ k =>
      have hp : p ≠ [] := by
        intro he
        rw [he] at hn
        simp at hn
      have hlast' : p.getLast? ≠ some 0 := by
        rcases p with _ | ⟨b, p⟩
        · exact absurd rfl hp
        · rw [List.getLast?_cons_cons] at hlast
          exact hlast
      have hk : k < p.length := by simp at hn; omega
      simpa using ih (containsSC_false_cons a p hsc) hlast' t k hk
    | zero =>
      simp only [List.drop_zero, List.cons_append]
      match a, p, hsc, hlast with
      | a + 1, p, _, _ => rfl
      | 0, [], _, hlast => simp at hlast
      | 0, (c + 1) :: p, _, _ => rfl
      | 0, 0 :: [], _, hlast => simp at hlast
      | 0, 0 :: 1 :: p, hsc, _ => exact Bool.noConfusion hsc
      | 0, 0 :: (d + 2) :: p, _, _ => rfl
      | 0, 0 :: 0 :: [], _, hlast => simp at hlast
      | 0, 0 :: 0 :: 1 :: p, hsc, _ => exact Bool.noConfusion hsc
      | 0, 0 :: 0 :: 0 :: p, _, _ => rfl
      | 0, 0 :: 0 :: (e + 2) :: p, _, _ => rfl

/-- Scanning a well-delimited payload with a unit open accumulates the whole
payload, whatever follows. -/
theorem aux_consume : ∀ p cur t : List Nat, containsSC p = false →
    p.getLast? ≠ some 0 →
    extractNalusAux (p ++ t) (some cur) = extractNalusAux t (some (cur ++ p)) := by
  intro p
  induction p with
  | nil => intro cur t _ _; simp
  | cons a p ih =>
    intro cur t hsc hlast
    have hnm : matchesCode (a :: (p ++ t)) = false := by
      simpa using payload_no_code (a :: p) hsc hlast t 0 (by simp)
    rw [List.cons_append, aux_skip_some a (p ++ t) cur hnm]
    have hlast' : p.getLast? ≠ some 0 := by
      rcases p with _ | ⟨b, p⟩
      · simp
      · rw [List.getLast?_cons_cons] at hlast
        exact hlast
    rw [ih (cur ++ [a]) t (containsSC_false_cons a p hsc) hlast']
    simp

/-- A buffer with no start code anywhere scans to the empty result. -/
theorem extract_nil_of_no_code : ∀ l : List Nat, containsSC l = false →
    extractNalusAux l none = []
  | [], _ => rfl
  | b :: rest, h => by
    rw [aux_skip_none b rest (matches_false_of_no_sc (b :: rest) h)]
    exact extract_nil_of_no_code rest (containsSC_false_cons b rest h)

/-- Scanning a well-formed Annex-B buffer yields exactly its payloads, both
with and without an open unit. -/
theorem aux_build : ∀ units : List (StartCode × List Nat),
    (∀ u ∈ units, wfUnit u) →
    (∀ cur : List Nat, cur ≠ [] →
        extractNalusAux (buildAnnexB units) (some cur)
          = cur :: units.map (fun u => u.2))
    ∧ extractNalusAux (buildAnnexB units) none = units.map (fun u => u.2) := by
  intro units
  induction units with
  | nil =>
    intro _
    constructor
    · intro cur hcur
      rw [show extractNalusAux (buildAnnexB []) (some cur)
        = if cur = [] then [] else [cur] from rfl, if_neg hcur]
      simp
    · rfl
  | cons u us ih =>
    intro hwf
    obtain ⟨hne, hsc, hlast, _⟩ := hwf u (by simp)
    have ihs := ih (fun x hx => hwf x (by simp [hx]))
    have hcode : ∀ acc, extractNalusAux (StartCode.bytes u.1 ++ (u.2 ++ buildAnnexB us)) acc
        = emitList acc ++ extractNalusAux (u.2 ++ buildAnnexB us) (some []) := by
      intro acc
      cases h1 : u.1 <;> cases acc <;> rfl
    have hmid : extractNalusAux (u.2 ++ buildAnnexB us) (some [])
        = u.2 :: us.map (fun u => u.2) := by
      rw [aux_consume u.2 [] (buildAnnexB us) hsc hlast]
      simpa using ihs.1 u.2 hne
    constructor
    · intro cur hcur
      show extractNalusAux (StartCode.bytes u.1 ++ u.2 ++ buildAnnexB us) (some cur) = _
      rw [List.append_assoc, hcode (some cur), hmid]
      simp [emitList]
    · show extractNalusAux (StartCode.bytes u.1 ++ u.2 ++ buildAnnexB us) none = _
      rw [List.append_assoc, hcode none, hmid]
      simp [emitList]

/-! ## Benign empty outcomes -/

/-- C5: absence of parseable content is never an error: a buffer with no
valid start code, and a buffer that is only a start code with no trailing
payload, scan to the empty result (the scanner is total and returns a list,
never an error); and each parameter-set output is absent (none — the Go nil
slice, not an allocated empty one) whenever no NAL unit of the matching type
is found. -/
theorem benign_empty_results :
    (∀ stream : List Nat, containsSC stream = false →
        ExtractNalusFromByteStream stream = [])
    ∧ ExtractNalusFromByteStream [0, 0, 1] = []
    ∧ ExtractNalusFromByteStream [0, 0, 0, 1] = []
    ∧ (∀ stream : List Nat,
        (∀ nalu ∈ ExtractNalusFromByteStream stream, naluType nalu ≠ 7) →
          (GetParameterSetsFromByteStream stream).1 = none)
    ∧ (∀ stream : List Nat,
        (∀ nalu ∈ ExtractNalusFromByteStream stream, naluType nalu ≠ 8) →
          (GetParameterSetsFromByteStream stream).2 = none) := by
  refine ⟨fun stream h => extract_nil_of_no_code stream h, rfl, rfl, ?_, ?_⟩
  · intro stream hno
    have hfil : (ExtractNalusFromByteStream stream).filter
        (fun nalu => naluType nalu == 7) = [] := by
      rw [List.filter_eq_nil_iff]
      intro a ha
      simp [hno a ha]
    simp [GetParameterSetsFromByteStream, hfil]
  · intro stream hno
    have hfil : (ExtractNalusFromByteStream stream).filter
        (fun nalu => naluType nalu == 8) = [] := by
      rw [List.filter_eq_nil_iff]
      intro a ha
      simp [hno a ha]
    simp [GetParameterSetsFromByteStream, hfil]

/-- Witness for C5: the no-start-code buffer of the repository's test and
the only-IDR stream. -/
theorem benign_empty_results_witness :
    ExtractNalusFromByteStream [0, 0, 2] = []
    ∧ (GetParameterSetsFromByteStream [0, 0, 0, 1, 5, 0]).1 = none
    ∧ (GetParameterSetsFromByteStream [0, 0, 0, 1, 5, 0]).2 = none :=
  ⟨benign_empty_results.1 [0, 0, 2] rfl,
   benign_empty_results.2.2.2.1 [0, 0, 0, 1, 5, 0] (by decide),
   benign_empty_results.2.2.2.2 [0, 0, 0, 1, 5, 0] (by decide)⟩

/-! ## Round trip of the two framings -/

theorem convSample_cons4 (b0 b1 b2 b3 : Nat) (rest : List Nat) :
    ConvertSampleToByteStream (b0 :: b1 :: b2 :: b3 :: rest)
      = [0, 0, 0, 1]
        ++ rest.take (b0 * 2 ^ 24 + b1 * 2 ^ 16 + b2 * 2 ^ 8 + b3)
        ++ ConvertSampleToByteStream
            (rest.drop (b0 * 2 ^ 24 + b1 * 2 ^ 16 + b2 * 2 ^ 8 + b3)) := by
  simp only [ConvertSampleToByteStream]

theorem convSample_flat : ∀ ps : List (List Nat),
    (∀ p ∈ ps, p.length < 2 ^ 32) →
    ConvertSampleToByteStream (flatMapB (fun p => u32Bytes p.length ++ p) ps)
      = flatMapB (fun p => [0, 0, 0, 1] ++ p) ps := by
  intro ps
  induction ps with
  | nil => intro _; simp [flatMapB, ConvertSampleToByteStream]
  | cons p ps ih =>
    intro h
    have hp := h p (by simp)
    show ConvertSampleToByteStream
        ((u32Bytes p.length ++ p) ++ flatMapB (fun p => u32Bytes p.length ++ p) ps)
      = _
    rw [show (u32Bytes p.length ++ p) ++ flatMapB (fun p => u32Bytes p.length ++ p) ps
        = p.length / 2 ^ 24 % 256 :: p.length / 2 ^ 16 % 256
          :: p.length / 2 ^ 8 % 256 :: p.length % 256
          :: (p ++ flatMapB (fun p => u32Bytes p.length ++ p) ps) from by
      simp [u32Bytes]]
    rw [convSample_cons4]
    have hrec : p.length / 2 ^ 24 % 256 * 2 ^ 24 + p.length / 2 ^ 16 % 256 * 2 ^ 16
        + p.length / 2 ^ 8 % 256 * 2 ^ 8 + p.length % 256 = p.length := by
      omega
    rw [hrec, List.take_left, List.drop_left,
      ih (fun q hq => h q (by simp [hq]))]
    simp [flatMapB]

theorem build_map_sc4 : ∀ units : List (StartCode × List Nat),
    buildAnnexB (units.map (fun u => (StartCode.sc4, u.2)))
      = flatMapB (fun p => [0, 0, 0, 1] ++ p) (units.map (fun u => u.2)) := by
  intro units
  induction units with
  | nil => rfl
  | cons u us ih => simp [buildAnnexB, flatMapB, StartCode.bytes, ih]

theorem build_all_sc4 : ∀ units : List (StartCode × List Nat),
    (∀ u ∈ units, u.1 = StartCode.sc4) →
    buildAnnexB (units.map (fun u => (StartCode.sc4, u.2))) = buildAnnexB units := by
  intro units
  induction units with
  | nil => intro _; rfl
  | cons u us ih =>
    intro h
    have h1 := h u (by simp)
    simp [buildAnnexB, ih (fun x hx => h x (by simp [hx])), h1]

/-- C9: converting a well-formed Annex-B buffer to sample format and back
yields the original buffer with every start code replaced by the canonical
4-byte code; when all original start codes are 4-byte, the round trip is the
identity.  Well-formedness (wfUnit) is non-empty payloads in which start
codes occur only as delimiters (no embedded 0x000001, no trailing zero byte
that would fuse with the following code) and whose lengths fit the 4-byte
length field. -/
theorem annexb_roundtrip_normalizes_startcodes :
    ∀ units : List (StartCode × List Nat), (∀ u ∈ units, wfUnit u) →
      ConvertSampleToByteStream (ConvertByteStreamToNaluSample (buildAnnexB units))
        = buildAnnexB (units.map (fun u => (StartCode.sc4, u.2)))
      ∧ ((∀ u ∈ units, u.1 = StartCode.sc4) →
          ConvertSampleToByteStream
              (ConvertByteStreamToNaluSample (buildAnnexB units))
            = buildAnnexB units) := by
  intro units hwf
  have hextract := (aux_build units hwf).2
  have h1 : ConvertByteStreamToNaluSample (buildAnnexB units)
      = flatMapB (fun nalu => u32Bytes nalu.length ++ nalu)
          (units.map (fun u => u.2)) := by
    show flatMapB _ (extractNalusAux (buildAnnexB units) none) = _
    rw [hextract]
  have hlen : ∀ p ∈ units.map (fun u => u.2), p.length < 2 ^ 32 := by
    intro p hp
    obtain ⟨u, hu, rfl⟩ := List.mem_map.mp hp
    exact (hwf u hu).2.2.2
  constructor
  · rw [h1, convSample_flat _ hlen, build_map_sc4]
  · intro hall
    rw [h1, convSample_flat _ hlen, ← build_map_sc4, build_all_sc4 units hall]

/-- Witness for C9: one 3-byte-code unit and one 4-byte-code unit; the round
trip normalizes the first start code to 4 bytes. -/
theorem annexb_roundtrip_normalizes_startcodes_witness :
    ConvertSampleToByteStream (ConvertByteStreamToNaluSample
        (buildAnnexB [(StartCode.sc3, [2, 3]), (StartCode.sc4, [7])]))
      = buildAnnexB [(StartCode.sc4, [2, 3]), (StartCode.sc4, [7])] :=
  (annexb_roundtrip_normalizes_startcodes
    [(StartCode.sc3, [2, 3]), (StartCode.sc4, [7])] (by decide)).1
